import Mathlib

/-!
Shallow embedding of the client-side data pipeline of the user-data explorer
application (frontend `App.js`, the worker script, and their data model), with
theorems checking the claims of the specification against it.

Conventions of the embedding:
* JS arrays become `List`, JS objects become structures.
* Machine timestamps (`Date.now()`, in epoch milliseconds) are `Int`.
* `localStorage` is a key-value map `String → Option CacheEntry`; the JSON
  round-trip through `JSON.stringify`/`JSON.parse` on cache entries is the
  identity in the model.
* `JSON.parse` on a stream line is an abstract parameter
  `parse : String → Option User` (`none` models a thrown parse error);
  `String.prototype.localeCompare` is an abstract parameter
  `lc : String → String → Int`.  Both are host-library functions, not code of
  the repository.
* `String.prototype.trim` and `String.prototype.split` are embedded
  executably on the character list of the string.
* The stable `Array.prototype.sort` is embedded as `List.mergeSort` on the
  comparator-induced order.
* The HTTP responses of the two page-fetch rounds are passed as explicit
  lists of outcomes (`Except` for a rejected/fulfilled promise), and a byte
  stream is a list of already-decoded string chunks read in order.
-/

namespace WebApp

/-- User record as produced by the backend and consumed by the frontend:
`{ id, name, age, email }`. -/
structure User where
  id : Int
  name : String
  age : Int
  email : String

deriving instance DecidableEq for User

/-! ## Processing dispatcher: `processInMainThread` (App.js) and the worker
`self.onmessage` (worker script) -/

/-- Comparator passed to `sort` in both processing paths: when `sortBy` is
the key `name` it is `localeCompare` on the names, otherwise `a.age - b.age`. -/
def userComparator (lc : String → String → Int) (sortBy : String) (a b : User) : Int :=
  if sortBy = "name" then lc a.name b.name else a.age - b.age

/-- Filter step of `processInMainThread`:
`users.filter(user => user.age > minAge)`. -/
def mainThreadFilter (users : List User) (minAge : Int) : List User :=
  users.filter (fun user => decide (user.age > minAge))

/-- Filter step of the worker `self.onmessage`:
`users.filter(user => user.age > minAge)`. -/
def workerFilter (users : List User) (minAge : Int) : List User :=
  users.filter (fun user => decide (user.age > minAge))

/-- `processInMainThread` from App.js: filter by strict age threshold, then
stable-sort the copy by the selected key. -/
def processInMainThread (lc : String → String → Int) (users : List User)
    (minAge : Int) (sortBy : String) : List User :=
  let filteredUsers := mainThreadFilter users minAge
  let sortedUsers := filteredUsers.mergeSort (fun a b => decide (userComparator lc sortBy a b ≤ 0))
  sortedUsers

/-- The worker `self.onmessage` handler (worker script): same filter and
sort over the posted `{ users, minAge, sortBy }`; it posts back the sorted
list (the measured `processingTime` is not part of the data model). -/
def workerOnMessage (lc : String → String → Int) (users : List User)
    (minAge : Int) (sortBy : String) : List User :=
  let filteredUsers := workerFilter users minAge
  let sortedUsers := filteredUsers.mergeSort (fun a b => decide (userComparator lc sortBy a b ≤ 0))
  sortedUsers

/-! ## Expiring cache: `saveToCache` / `getFromCache` (App.js) -/

/-- `CACHE_EXPIRY = 5 * 60 * 1000` (five minutes, in milliseconds). -/
def CACHE_EXPIRY : Int := 5 * 60 * 1000

/-- A stored cache entry `{ data, timestamp }`. -/
structure CacheEntry where
  data : List User
  timestamp : Int

deriving instance DecidableEq for CacheEntry

/-- The `localStorage` key-value store, restricted to cache entries. -/
abbrev Storage := String → Option CacheEntry

/-- A `localStorage` with no entries. -/
def emptyStorage : Storage := fun _ => none

/-- `saveToCache(key, data)`: store the payload with the current timestamp,
overwriting any previous entry under the key. -/
def saveToCache (storage : Storage) (now : Int) (key : String) (data : List User) : Storage :=
  fun k => if k = key then some ⟨data, now⟩ else storage k

/-- `getFromCache(key)` at time `now`: return the payload unless
`now - timestamp > CACHE_EXPIRY`, in which case remove the entry
(`localStorage.removeItem`) and return `null`.  The second component is the
storage after the call (capturing the eviction side effect). -/
def getFromCache (storage : Storage) (now : Int) (key : String) :
    Option (List User) × Storage :=
  match storage key with
  | none => (none, storage)
  | some entry =>
    if now - entry.timestamp > CACHE_EXPIRY then
      (none, fun k => if k = key then none else storage k)
    else
      (some entry.data, storage)

/-! ## Parallel fetch coordinator: `fetchParallelData` (App.js) -/

/-- Outcome of one page request `fetch(...).then(res => res.json())`:
fulfilled with a batch of users, or rejected with an error message. -/
abbrev PageResult := Except String (List User)

/-- `Promise.all` over the page requests: rejects with the first rejection,
otherwise fulfills with the list of batches. -/
def promiseAll : List PageResult → Except String (List (List User))
  | [] => Except.ok []
  | Except.error e :: _ => Except.error e
  | Except.ok v :: rest => (promiseAll rest).map (fun vs => v :: vs)

/-- `Promise.allSettled` over the page requests, followed by
filtering the outcomes down to the fulfilled ones and taking each value:
the batches of the fulfilled requests, in order. -/
def settledSuccesses (rs : List PageResult) : List (List User) :=
  rs.filterMap (fun r => match r with | Except.ok v => some v | Except.error _ => none)

/-- The merge step of `fetchParallelData`:
`[...allUsers, ...successfulData].filter((user, index, self) => index === self.findIndex(u => u.id === user.id))`
— keep an element exactly when its index is the first index holding its `id`. -/
def dedupById (l : List User) : List User :=
  ((l.enum).filter
    (fun p => decide (l.findIdx? (fun v => decide (v.id = p.2.id)) = some p.1))).map Prod.snd

/-- Observable outcome of one `fetchParallelData` run. -/
structure FetchResult where
  /-- `some e` when the `Promise.all` phase rejected and control jumped to the
  `catch` block. -/
  failFastError : Option String
  /-- Whether the `Promise.allSettled` phase was reached at all. -/
  settledRan : Bool
  /-- `successfulData` (flattened fulfilled batches) when that phase ran. -/
  settled : Option (List User)
  /-- The `combinedUsers` committed via `setUsers`, if the run got that far. -/
  finalUsers : Option (List User)

deriving instance DecidableEq for FetchResult

/-- `fetchParallelData` from App.js, given the cache-lookup outcome and the
outcomes of the page requests of the two rounds (the same set of pages is
fetched once for the `Promise.all` round and once more for the
`Promise.allSettled` round).  When `Promise.all` rejects, the `await` throws
and the remainder of the `try` block — including the whole
`Promise.allSettled` phase — is skipped. -/
def fetchParallelData (cached : Option (List User))
    (round1 round2 : List PageResult) : FetchResult :=
  match cached with
  | some data =>
    { failFastError := none, settledRan := false, settled := none, finalUsers := some data }
  | none =>
    match promiseAll round1 with
    | Except.error e =>
      { failFastError := some e, settledRan := false, settled := none, finalUsers := none }
    | Except.ok batches =>
      let allUsers := batches.flatten
      let successfulData := (settledSuccesses round2).flatten
      let combinedUsers := dedupById (allUsers ++ successfulData)
      { failFastError := none, settledRan := true, settled := some successfulData,
        finalUsers := some combinedUsers }

/-! ## Streaming ingestor: `streamData` (App.js) -/

/-- Embedding of `line.trim()`: strip whitespace from both ends. -/
def trimStr (s : String) : String :=
  String.mk (((s.data.dropWhile Char.isWhitespace).reverse.dropWhile Char.isWhitespace).reverse)

/-- Embedding of `buffer.split('\n')` on the character list. -/
def splitLines (s : String) : List String :=
  (s.data.splitOn '\n').map (fun cs => String.mk cs)

/-- The mutable state of one `streamData` run: the partial-line `buffer`, the
accepted `streamUsers` (in arrival order, deduplicated), and `receivedCount`. -/
structure StreamState where
  buffer : String
  streamUsers : List User
  receivedCount : Nat

deriving instance DecidableEq for StreamState

/-- State at the start of a run: no accepted users, empty buffer,
`receivedCount = 0`. -/
def initialStreamState : StreamState := ⟨ "", [], 0⟩

/-- Body of the `for (const line of lines.slice(0, -1))` loop: skip once the
limit is reached; skip blank lines; `JSON.parse` the line (a parse error is
caught and only logged); throw-and-catch on a falsy `id` or `name`; append the
user unless an accepted user already has its `id`; increment `receivedCount`
in every non-skipped iteration. -/
def processLine (parse : String → Option User) (limit : Nat)
    (st : StreamState) (line : String) : StreamState :=
  if st.receivedCount ≥ limit then st
  else if trimStr line = "" then st
  else match parse line with
    | none => st
    | some user =>
      if user.id = 0 ∨ user.name = "" then st
      else
        { buffer := st.buffer
          streamUsers :=
            if st.streamUsers.any (fun u => u.id == user.id) then st.streamUsers
            else st.streamUsers ++ [user]
          receivedCount := st.receivedCount + 1 }

/-- One iteration of the read loop after a successful `reader.read()`:
append the chunk to the buffer, split on newlines, process every complete
line, and keep the trailing segment as the new buffer. -/
def processChunk (parse : String → Option User) (limit : Nat)
    (st : StreamState) (chunk : String) : StreamState :=
  let buffer := st.buffer ++ chunk
  let lines := splitLines buffer
  let st1 := lines.dropLast.foldl (processLine parse limit) st
  { st1 with buffer := lines.getLast?.getD "" }

/-- The `while (receivedCount < dataSettings.streamLimit)` read loop over the
remaining chunks of the response body; an empty list is the `done` signal, on
which the loop exits without touching the buffer. -/
def streamLoop (parse : String → Option User) (limit : Nat) :
    StreamState → List String → StreamState
  | st, [] => st
  | st, chunk :: rest =>
    if st.receivedCount < limit then
      streamLoop parse limit (processChunk parse limit st chunk) rest
    else st

/-- A whole `streamData` run over a list of chunks. -/
def streamData (parse : String → Option User) (limit : Nat)
    (chunks : List String) : StreamState :=
  streamLoop parse limit initialStreamState chunks

/-! ## Concrete records, stream lines and page responses used as inputs for
witnesses and counterexamples -/

def uAni : User := ⟨1, "Ani", 25, "ani@example.com"⟩
def uBudi : User := ⟨2, "Budi", 31, "budi@example.com"⟩
def uCitra : User := ⟨3, "Citra", 35, "citra@example.com"⟩
def uAniDup : User := ⟨1, "Anita", 28, "anita@example.com"⟩
def uZero : User := ⟨0, "Zed", 40, "zed@example.com"⟩

def lineAni : String := "\x7b\"id\":1,\"name\":\"Ani\",\"age\":25,\"email\":\"ani@example.com\"\x7d"
def lineBudi : String := "\x7b\"id\":2,\"name\":\"Budi\",\"age\":31,\"email\":\"budi@example.com\"\x7d"
def lineCitra : String := "\x7b\"id\":3,\"name\":\"Citra\",\"age\":35,\"email\":\"citra@example.com\"\x7d"
def lineAniDup : String := "\x7b\"id\":1,\"name\":\"Anita\",\"age\":28,\"email\":\"anita@example.com\"\x7d"
def lineZero : String := "\x7b\"id\":0,\"name\":\"Zed\",\"age\":40,\"email\":\"zed@example.com\"\x7d"
def lineBad : String := "\x7bbad json"

/-- `JSON.parse` restricted to the concrete documents above: any other string
models a document that throws on parsing. -/
def parseTest (s : String) : Option User :=
  if s = lineAni then some uAni
  else if s = lineBudi then some uBudi
  else if s = lineCitra then some uCitra
  else if s = lineAniDup then some uAniDup
  else if s = lineZero then some uZero
  else none

def nl : String := "\n"

def chunkAni : String := lineAni ++ nl
def chunkBudi : String := lineBudi ++ nl
def chunkDup : String := lineAni ++ nl ++ lineAniDup ++ nl ++ lineCitra ++ nl
def chunkWithBad : String := lineAni ++ nl ++ lineBad ++ nl ++ lineBudi ++ nl

def netErr : String := "network error"
def cacheKey : String := "users"

/-- Two page requests of which the second fails. -/
def pagesOneFail : List PageResult := [Except.ok [uAni], Except.error netErr]

/-- Two page requests that both succeed. -/
def pagesOk : List PageResult := [Except.ok [uAni], Except.ok [uBudi]]

def dupPair : List User := [uAni, uAniDup]
def distinctPair : List User := [uAni, uBudi]

/-- A mid-run stream state: `uAni` already accepted, one record counted. -/
def stDemo : StreamState := ⟨ "", [uAni], 1⟩

/-! ## Helper lemmas about the streaming ingestor -/

theorem processLine_of_ge (parse : String → Option User) (limit : Nat)
    (st : StreamState) (line : String) (h : limit ≤ st.receivedCount) :
    processLine parse limit st line = st := by
  unfold processLine
  rw [if_pos h]

theorem processLine_parse_none (parse : String → Option User) (limit : Nat)
    (st : StreamState) (line : String) (h : parse line = none) :
    processLine parse limit st line = st := by
  unfold processLine
  split
  · rfl
  · split
    · rfl
    · simp only [h]

theorem processLine_invalid (parse : String → Option User) (limit : Nat)
    (st : StreamState) (line : String) (user : User)
    (hp : parse line = some user) (hv : user.id = 0 ∨ user.name = "") :
    processLine parse limit st line = st := by
  unfold processLine
  split
  · rfl
  · split
    · rfl
    · simp only [hp]
      rw [if_pos hv]

theorem processLine_inv (parse : String → Option User) (limit : Nat)
    (st : StreamState) (line : String)
    (h1 : st.streamUsers.length ≤ st.receivedCount) (h2 : st.receivedCount ≤ limit) :
    (processLine parse limit st line).streamUsers.length
        ≤ (processLine parse limit st line).receivedCount
    ∧ (processLine parse limit st line).receivedCount ≤ limit := by
  unfold processLine
  split
  · exact ⟨h1, h2⟩
  rename_i hge
  split
  · exact ⟨h1, h2⟩
  split
  · exact ⟨h1, h2⟩
  split
  · exact ⟨h1, h2⟩
  constructor
  · simp only []
    split
    · exact Nat.le_succ_of_le h1
    · simpa [List.length_append] using Nat.succ_le_succ h1
  · simp only []
    omega

theorem foldl_processLine_inv (parse : String → Option User) (limit : Nat)
    (lines : List String) (st : StreamState)
    (h1 : st.streamUsers.length ≤ st.receivedCount) (h2 : st.receivedCount ≤ limit) :
    (lines.foldl (processLine parse limit) st).streamUsers.length
        ≤ (lines.foldl (processLine parse limit) st).receivedCount
    ∧ (lines.foldl (processLine parse limit) st).receivedCount ≤ limit := by
  induction lines generalizing st with
  | nil => exact ⟨h1, h2⟩
  | cons l ls ih =>
    have h := processLine_inv parse limit st l h1 h2
    exact ih (processLine parse limit st l) h.1 h.2

theorem processChunk_inv (parse : String → Option User) (limit : Nat)
    (st : StreamState) (chunk : String)
    (h1 : st.streamUsers.length ≤ st.receivedCount) (h2 : st.receivedCount ≤ limit) :
    (processChunk parse limit st chunk).streamUsers.length
        ≤ (processChunk parse limit st chunk).receivedCount
    ∧ (processChunk parse limit st chunk).receivedCount ≤ limit := by
  unfold processChunk
  exact foldl_processLine_inv parse limit _ st h1 h2

theorem streamLoop_inv (parse : String → Option User) (limit : Nat)
    (chunks : List String) (st : StreamState)
    (h1 : st.streamUsers.length ≤ st.receivedCount) (h2 : st.receivedCount ≤ limit) :
    (streamLoop parse limit st chunks).streamUsers.length
        ≤ (streamLoop parse limit st chunks).receivedCount
    ∧ (streamLoop parse limit st chunks).receivedCount ≤ limit := by
  induction chunks generalizing st with
  | nil => exact ⟨h1, h2⟩
  | cons c rest ih =>
    unfold streamLoop
    split
    · have h := processChunk_inv parse limit st c h1 h2
      exact ih (processChunk parse limit st c) h.1 h.2
    · exact ⟨h1, h2⟩

theorem streamLoop_of_ge (parse : String → Option User) (limit : Nat)
    (st : StreamState) (chunks : List String) (h : limit ≤ st.receivedCount) :
    streamLoop parse limit st chunks = st := by
  cases chunks with
  | nil => rfl
  | cons c rest =>
    unfold streamLoop
    rw [if_neg (by omega)]

theorem streamLoop_cons (parse : String → Option User) (limit : Nat)
    (st : StreamState) (c : String) (rest : List String) :
    streamLoop parse limit st (c :: rest)
      = if st.receivedCount < limit then
          streamLoop parse limit (processChunk parse limit st c) rest
        else st := rfl

theorem streamLoop_append_of_ge (parse : String → Option User) (limit : Nat)
    (chunks extra : List String) (st : StreamState)
    (h : limit ≤ (streamLoop parse limit st chunks).receivedCount) :
    streamLoop parse limit st (chunks ++ extra) = streamLoop parse limit st chunks := by
  induction chunks generalizing st with
  | nil =>
    exact streamLoop_of_ge parse limit st extra h
  | cons c rest ih =>
    rw [streamLoop_cons] at h
    rw [List.cons_append, streamLoop_cons, streamLoop_cons]
    by_cases hc : st.receivedCount < limit
    · rw [if_pos hc] at h
      rw [if_pos hc, if_pos hc]
      exact ih (processChunk parse limit st c) h
    · rw [if_neg hc, if_neg hc]

/-! ## Claim theorems: processing dispatcher -/

/-- Claim C1: for every list of user records, every minimum-age threshold and
every sort key, the offloaded (worker) processing path and the inline
(main-thread) processing path produce identical output sequences — the same
filtered records in the same order (for any host `localeCompare`). -/
theorem worker_matches_main_thread (lc : String → String → Int) (users : List User)
    (minAge : Int) (sortBy : String) :
    workerOnMessage lc users minAge sortBy = processInMainThread lc users minAge sortBy := rfl

/-- Claim C7: the filtering step of both processing paths keeps exactly the
records with `age > T` (strict inequality, a record with `age = T` is
excluded), preserving relative order (sublist of the input). -/
theorem processing_filter_keeps_strictly_older (R : List User) (T : Int) :
    (∀ r, r ∈ mainThreadFilter R T ↔ r ∈ R ∧ r.age > T)
    ∧ List.Sublist (mainThreadFilter R T) R
    ∧ (∀ r, r ∈ R → r.age = T → r ∉ mainThreadFilter R T)
    ∧ workerFilter R T = mainThreadFilter R T := by
  refine ⟨?_, List.filter_sublist R, ?_, rfl⟩
  · intro r
    simp [mainThreadFilter, List.mem_filter]
  · intro r _ hage hmem
    simp only [mainThreadFilter, List.mem_filter, decide_eq_true_eq] at hmem
    exact absurd hmem.2 (by omega)

theorem processing_filter_keeps_strictly_older_witness :
    uAni ∉ mainThreadFilter [uAni] 25 :=
  (processing_filter_keeps_strictly_older [uAni] 25).2.2.1 uAni (by decide) (by decide)

/-! ## Claim theorems: streaming ingestor -/

/-- Claim C2: with `streamLimit = N ≥ 1`, a streaming run accepts at most `N`
records, and once the counted records reach `N` the run consumes no further
input: extending the stream with arbitrary extra chunks leaves the final
result unchanged (the remaining stream is never read). -/
theorem streamData_respects_streamLimit (parse : String → Option User) (N : Nat)
    (hN : 1 ≤ N) (chunks extra : List String) :
    (streamData parse N chunks).streamUsers.length ≤ N
    ∧ (N ≤ (streamData parse N chunks).receivedCount →
        streamData parse N (chunks ++ extra) = streamData parse N chunks) := by
  constructor
  · have h := streamLoop_inv parse N chunks initialStreamState
      (by simp [initialStreamState]) (by simp [initialStreamState])
    exact le_trans h.1 h.2
  · intro h
    exact streamLoop_append_of_ge parse N chunks extra initialStreamState h

theorem streamData_respects_streamLimit_witness :
    (streamData parseTest 1 [chunkAni]).streamUsers.length ≤ 1
    ∧ streamData parseTest 1 ([chunkAni] ++ [chunkBudi]) = streamData parseTest 1 [chunkAni] := by
  have h := streamData_respects_streamLimit parseTest 1 (by decide) [chunkAni] [chunkBudi]
  exact ⟨h.1, h.2 (by decide)⟩

/-- Claim C6: a line that fails to parse as JSON, or parses to a record that
fails validation, is skipped without aborting ingestion — processing a line
sequence containing the bad line gives the same state as processing the same
sequence with the bad line removed, so all valid lines before and after it
are still accepted. -/
theorem stream_skips_malformed_lines (parse : String → Option User) (limit : Nat)
    (st : StreamState) (pre post : List String) (bad : String)
    (hbad : parse bad = none ∨ ∃ u, parse bad = some u ∧ (u.id = 0 ∨ u.name = "")) :
    (pre ++ bad :: post).foldl (processLine parse limit) st
      = (pre ++ post).foldl (processLine parse limit) st := by
  have hskip : ∀ s : StreamState, processLine parse limit s bad = s := by
    intro s
    rcases hbad with h | ⟨u, hu, hv⟩
    · exact processLine_parse_none parse limit s bad h
    · exact processLine_invalid parse limit s bad u hu hv
  rw [List.foldl_append, List.foldl_append, List.foldl_cons, hskip]

theorem stream_skips_malformed_lines_witness :
    ([lineAni] ++ lineBad :: [lineBudi]).foldl (processLine parseTest 15) initialStreamState
      = ([lineAni] ++ [lineBudi]).foldl (processLine parseTest 15) initialStreamState :=
  stream_skips_malformed_lines parseTest 15 initialStreamState [lineAni] [lineBudi] lineBad
    (Or.inl (by decide))

/-- Claim C9: a parsed, validated record whose `id` matches an
already-accepted record is not appended to the output, yet still increments
the count compared against `streamLimit`; consequently a run can stop with
fewer than `streamLimit` distinct accepted records even though the stream
holds further distinct valid records (witnessed by the concrete run with
limit 2 over `uAni`, a duplicate of `uAni`, and `uCitra`). -/
theorem stream_duplicate_id_counts_against_limit :
    (∀ (parse : String → Option User) (limit : Nat) (st : StreamState)
        (line : String) (user : User),
      parse line = some user → trimStr line ≠ "" → ¬(user.id = 0 ∨ user.name = "") →
      st.receivedCount < limit →
      st.streamUsers.any (fun u => u.id == user.id) = true →
      processLine parse limit st line = { st with receivedCount := st.receivedCount + 1 })
    ∧ (streamData parseTest 2 [chunkDup]).streamUsers = [uAni]
    ∧ (streamData parseTest 2 [chunkDup]).receivedCount = 2
    ∧ (streamData parseTest 2 [chunkDup]).streamUsers.length < 2
    ∧ parseTest lineCitra = some uCitra
    ∧ (∀ u ∈ (streamData parseTest 2 [chunkDup]).streamUsers, u.id ≠ uCitra.id) := by
  refine ⟨?_, by decide, by decide, by decide, by decide, by decide⟩
  intro parse limit st line user hp ht hv hlt hdup
  unfold processLine
  rw [if_neg (by omega), if_neg ht]
  simp only [hp]
  rw [if_neg hv, if_pos hdup]

theorem stream_duplicate_id_counts_against_limit_witness :
    processLine parseTest 2 stDemo lineAniDup = { stDemo with receivedCount := 2 } :=
  stream_duplicate_id_counts_against_limit.1 parseTest 2 stDemo lineAniDup uAniDup
    (by decide) (by decide) (by decide) (by decide) (by decide)

/-- Claim C10: stream-record validation rejects every parsed record whose
`id` or `name` is falsy — in particular a record with `id = 0` or with an
empty `name` is skipped entirely (no append, no count). -/
theorem stream_rejects_falsy_id_or_name (parse : String → Option User) (limit : Nat)
    (st : StreamState) (line : String) (user : User)
    (hp : parse line = some user) (hv : user.id = 0 ∨ user.name = "") :
    processLine parse limit st line = st :=
  processLine_invalid parse limit st line user hp hv

theorem stream_rejects_falsy_id_or_name_witness :
    processLine parseTest 15 initialStreamState lineZero = initialStreamState :=
  stream_rejects_falsy_id_or_name parseTest 15 initialStreamState lineZero uZero
    (by decide) (Or.inl (by decide))

/-! ## Claim theorems: expiring cache -/

/-- Claim C4 counterexample: when `now - storedAt` equals the TTL exactly
(`300000` ms), the condition `now - timestamp > CACHE_EXPIRY` is false, so the
code still returns the payload — contradicting "get(k) returns v exactly when
now − storedAt < TTL". -/
theorem getFromCache_exact_ttl_cex :
    ¬((300000 : Int) - 0 < CACHE_EXPIRY)
    ∧ (getFromCache (saveToCache emptyStorage 0 cacheKey [uAni]) 300000 cacheKey).1
        = some [uAni] := by
  exact ⟨by decide, by decide⟩

/-- Claim C4 (amended): after `put(k, v)` at time `t`, `get(k)` at time `now`
returns `v` exactly when `now - t ≤ TTL` (the boundary `now - t = TTL` still
hits); once `now - t` exceeds the TTL, `get` misses and removes the entry as
a side effect; an immediate `get` after `put` returns `v`. -/
theorem getFromCache_ttl_semantics (storage : Storage) (t now : Int)
    (key : String) (v : List User) :
    ((getFromCache (saveToCache storage t key v) now key).1 = some v
        ↔ now - t ≤ CACHE_EXPIRY)
    ∧ (now - t > CACHE_EXPIRY →
        (getFromCache (saveToCache storage t key v) now key).1 = none
        ∧ (getFromCache (saveToCache storage t key v) now key).2 key = none)
    ∧ (getFromCache (saveToCache storage t key v) t key).1 = some v := by
  have hs : saveToCache storage t key v key = some ⟨v, t⟩ := by
    simp [saveToCache]
  have hget : ∀ now' : Int, getFromCache (saveToCache storage t key v) now' key
      = if now' - t > CACHE_EXPIRY
        then (none, fun k => if k = key then none else saveToCache storage t key v k)
        else (some v, saveToCache storage t key v) := by
    intro now'
    simp only [getFromCache, hs]
  refine ⟨?_, ?_, ?_⟩
  · rw [hget]
    by_cases h : now - t > CACHE_EXPIRY
    · rw [if_pos h]
      exact ⟨fun hc => by simp at hc, fun hle => absurd h (not_lt.mpr hle)⟩
    · rw [if_neg h]
      exact ⟨fun _ => not_lt.mp h, fun _ => rfl⟩
  · intro h
    rw [hget, if_pos h]
    exact ⟨rfl, by simp⟩
  · rw [hget, if_neg (by simp [CACHE_EXPIRY])]

theorem getFromCache_ttl_semantics_witness :
    (getFromCache (saveToCache emptyStorage 0 cacheKey [uAni]) 300001 cacheKey).1 = none :=
  ((getFromCache_ttl_semantics emptyStorage 0 300001 cacheKey [uAni]).2.1 (by decide)).1

/-! ## Claim theorems: parallel fetch coordinator -/

/-- Claim C3 counterexample: with two page requests of which the second fails
(the same outcomes in both rounds), the fail-fast phase rejects — and the
`Promise.allSettled` phase never runs, so it does not yield the records of
the successful page; the whole run aborts in the `catch` block. -/
theorem fetch_failfast_aborts_settled_cex :
    (fetchParallelData none pagesOneFail pagesOneFail).failFastError = some netErr
    ∧ (fetchParallelData none pagesOneFail pagesOneFail).settledRan = false
    ∧ (fetchParallelData none pagesOneFail pagesOneFail).settled = none := by
  exact ⟨rfl, rfl, rfl⟩

/-- Claim C3 (amended): when a page request of the fail-fast round fails, the
rejected `await Promise.all` throws, the run aborts in the `catch` block, and
the partial-success phase is never reached (no settled result, no final
users).  Only when the fail-fast round fulfills does the partial-success
phase run, and it then always yields a (possibly empty) result: exactly the
records of the fulfilled requests of its round, which are merged with the
fail-fast records and deduplicated into the final result. -/
theorem fetchParallelData_settled_requires_failfast (round1 round2 : List PageResult) :
    (∀ e, promiseAll round1 = Except.error e →
      fetchParallelData none round1 round2
        = { failFastError := some e, settledRan := false, settled := none,
            finalUsers := none })
    ∧ (∀ batches, promiseAll round1 = Except.ok batches →
      fetchParallelData none round1 round2
        = { failFastError := none, settledRan := true,
            settled := some (settledSuccesses round2).flatten,
            finalUsers := some (dedupById (batches.flatten
              ++ (settledSuccesses round2).flatten)) }) := by
  constructor
  · intro e he
    simp only [fetchParallelData, he]
  · intro batches hb
    simp only [fetchParallelData, hb]

theorem fetchParallelData_settled_requires_failfast_witness :
    fetchParallelData none pagesOneFail pagesOk
      = { failFastError := some netErr, settledRan := false, settled := none,
          finalUsers := none } :=
  (fetchParallelData_settled_requires_failfast pagesOneFail pagesOk).1 netErr rfl

/-! ## Claim theorems: stream buffer handling -/

theorem splitLines_of_no_newline (s : String) (h : ∀ ch ∈ s.data, ch ≠ '\n') :
    splitLines s = [s] := by
  unfold splitLines
  have hsp : s.data.splitOn '\n' = [s.data] := by
    unfold List.splitOn
    exact List.splitOnP_eq_single _ _ (fun x hx => by simp [h x hx])
  rw [hsp]
  rfl

theorem splitLines_append_nl (b : String) (h : ∀ ch ∈ b.data, ch ≠ '\n') :
    splitLines (b ++ nl) = [b, ""] := by
  unfold splitLines
  have hd : (b ++ nl).data = b.data ++ '\n' :: [] := by
    rw [String.data_append]
    rfl
  rw [hd]
  unfold List.splitOn
  rw [List.splitOnP_first _ _ (fun x hx => by simp [h x hx]) '\n' (by simp) []]
  rw [List.splitOnP_nil]
  rfl

/-- Claim C5 counterexample: a stream consisting of one chunk holding a valid
record not followed by a newline: when the stream ends, the record is still
sitting unparsed in the buffer and was never accepted — contradicting "a
final valid record not followed by a newline is still parsed when the stream
ends". -/
theorem stream_end_discards_unterminated_tail_cex :
    parseTest lineAni = some uAni
    ∧ ¬(uAni.id = 0 ∨ uAni.name = "")
    ∧ (streamData parseTest 15 [lineAni]).streamUsers = []
    ∧ (streamData parseTest 15 [lineAni]).buffer = lineAni := by
  exact ⟨by decide, by decide, by decide, by decide⟩

/-- Claim C5 (amended): the trailing unterminated buffer segment is retained
across reads and is parsed only once a terminating newline arrives: a chunk
without a newline is appended to the buffer and nothing is parsed; a newline
chunk causes exactly the buffered segment to be run through line processing;
but when the stream ends (`done`), the loop exits unchanged, so an
unterminated final segment is discarded unparsed. -/
theorem stream_buffer_parsed_only_at_newline :
    (∀ (parse : String → Option User) (limit : Nat) (st : StreamState) (chunk : String),
      (∀ ch ∈ (st.buffer ++ chunk).data, ch ≠ '\n') →
      processChunk parse limit st chunk = { st with buffer := st.buffer ++ chunk })
    ∧ (∀ (parse : String → Option User) (limit : Nat) (st : StreamState),
      (∀ ch ∈ st.buffer.data, ch ≠ '\n') →
      processChunk parse limit st nl
        = { processLine parse limit st st.buffer with buffer := "" })
    ∧ (∀ (parse : String → Option User) (limit : Nat) (st : StreamState),
      streamLoop parse limit st [] = st) := by
  refine ⟨?_, ?_, fun _ _ _ => rfl⟩
  · intro parse limit st chunk h
    simp only [processChunk]
    rw [splitLines_of_no_newline (st.buffer ++ chunk) h]
    rfl
  · intro parse limit st h
    simp only [processChunk]
    rw [splitLines_append_nl st.buffer h]
    rfl

theorem stream_buffer_parsed_only_at_newline_witness :
    processChunk parseTest 15 initialStreamState lineBad
      = { initialStreamState with buffer := initialStreamState.buffer ++ lineBad } :=
  stream_buffer_parsed_only_at_newline.1 parseTest 15 initialStreamState lineBad (by decide)

/-! ## Claim theorems: deduplication by id -/

theorem enumFrom_append_eq {α : Type} (l₁ l₂ : List α) (n : Nat) :
    List.enumFrom n (l₁ ++ l₂) = List.enumFrom n l₁ ++ List.enumFrom (n + l₁.length) l₂ := by
  induction l₁ generalizing n with
  | nil => simp
  | cons x xs ih =>
    simp [List.enumFrom, ih, Nat.add_assoc, Nat.add_comm 1 xs.length]

theorem findIdx_matching_id_exists (S : List User) (i : Nat) (hi : i < S.length) :
    ∃ j, S.findIdx? (fun v => decide (v.id = S[i].id)) = some j ∧ j < S.length := by
  have hsome : (S.findIdx? (fun v => decide (v.id = S[i].id))).isSome := by
    rw [List.findIdx?_isSome, List.any_eq_true]
    exact ⟨S[i], List.getElem_mem hi, by simp⟩
  obtain ⟨j, hj⟩ := Option.isSome_iff_exists.mp hsome
  obtain ⟨hlt, -, -⟩ := List.findIdx?_eq_some_iff_getElem.mp hj
  exact ⟨j, hj, hlt⟩

theorem dedupById_append_self (S : List User) : dedupById (S ++ S) = dedupById S := by
  unfold dedupById
  have he : (S ++ S).enum = S.enum ++ List.enumFrom S.length S := by
    simpa [List.enum] using enumFrom_append_eq S S 0
  rw [he, List.filter_append, List.map_append]
  have h2 : (List.enumFrom S.length S).filter
      (fun p => decide ((S ++ S).findIdx? (fun v => decide (v.id = p.2.id)) = some p.1))
      = [] := by
    rw [List.filter_eq_nil_iff, List.forall_mem_enumFrom]
    intro i hi
    simp only [decide_eq_true_eq]
    obtain ⟨j, hj, hjlt⟩ := findIdx_matching_id_exists S i hi
    rw [List.findIdx?_append, hj, Option.or_some]
    intro hcontra
    have hji : j = S.length + i := Option.some.inj hcontra
    omega
  have h1 : S.enum.filter
      (fun p => decide ((S ++ S).findIdx? (fun v => decide (v.id = p.2.id)) = some p.1))
      = S.enum.filter
      (fun p => decide (S.findIdx? (fun v => decide (v.id = p.2.id)) = some p.1)) := by
    apply List.filter_congr
    rw [List.forall_mem_enum]
    intro i hi
    obtain ⟨j, hj, hjlt⟩ := findIdx_matching_id_exists S i hi
    simp only []
    rw [List.findIdx?_append, hj, Option.or_some]
  rw [h1, h2]
  simp

theorem dedupById_eq_self_of_nodup (S : List User) (h : (S.map User.id).Nodup) :
    dedupById S = S := by
  unfold dedupById
  have hf : S.enum.filter
      (fun p => decide (S.findIdx? (fun v => decide (v.id = p.2.id)) = some p.1))
      = S.enum := by
    rw [List.filter_eq_self, List.forall_mem_enum]
    intro i hi
    simp only [decide_eq_true_eq]
    rw [List.findIdx?_eq_some_iff_getElem]
    refine ⟨hi, by simp, ?_⟩
    intro j hj
    simp only [decide_eq_true_eq]
    intro heq
    have hjm : j < (S.map User.id).length := by
      simpa using lt_trans hj hi
    have him : i < (S.map User.id).length := by simpa using hi
    have hmap : (S.map User.id)[j] = (S.map User.id)[i] := by
      simp [List.getElem_map, heq]
    have hij := (List.Nodup.getElem_inj_iff h).mp hmap
    omega
  rw [hf]
  simp [List.enum, List.enumFrom_map_snd]

/-- Claim C8 counterexample: for the two-record list `dupPair = [uAni, uAniDup]`
whose records share id 1, deduplicating the self-concatenation collapses the
internal duplicate and yields `[uAni]`, not the original list — so "merging a
set with itself yields the original set" fails for lists with repeated ids. -/
theorem dedupById_self_merge_cex :
    dedupById (dupPair ++ dupPair) ≠ dupPair
    ∧ dedupById (dupPair ++ dupPair) = [uAni] := by
  exact ⟨by decide, by decide⟩

/-- Claim C8 (amended): deduplication by id is idempotent on merges —
`dedupById (S ++ S) = dedupById S` for every record list `S` — and merging a
list with itself gives back the original list exactly when the ids of `S` are
already pairwise distinct. -/
theorem dedupById_self_merge (S : List User) :
    dedupById (S ++ S) = dedupById S
    ∧ ((S.map User.id).Nodup → dedupById (S ++ S) = S) :=
  ⟨dedupById_append_self S,
   fun h => (dedupById_append_self S).trans (dedupById_eq_self_of_nodup S h)⟩

theorem dedupById_self_merge_witness :
    dedupById (distinctPair ++ distinctPair) = distinctPair :=
  (dedupById_self_merge distinctPair).2 (by decide)

end WebApp
